import Mathlib

/-!
Verification of the profile resolution and merge engine of `claude_profiles.py`
against its natural-language specification.

The embedding models Python dictionaries as insertion-ordered association
lists (Python dicts preserve insertion order and have unique keys), JSON
values as an inductive type, and the filesystem as an explicit record of the
file listing together with the parse outcome of the files that the code reads.
-/

/-- JSON-like values, as produced by `json.loads` and stored in profile
documents. -/
inductive JVal where
  | str : String → JVal
  | num : Int → JVal
  | bool : Bool → JVal
  | null : JVal
  | arr : List JVal → JVal
  | obj : List (String × JVal) → JVal

/-- Lookup in an association list, modelling Python `d.get(k)` /
`d[k]` (first occurrence wins; Python dicts have unique keys). -/
def dlookup {α : Type} : List (String × α) → String → Option α
  | [], _ => none
  | (k', v) :: d, k => if k' == k then some v else dlookup d k

/-- Key membership, modelling Python `k in d`. -/
def dhas {α : Type} (d : List (String × α)) (k : String) : Bool :=
  (dlookup d k).isSome

/-- Assignment `d[k] = v`: replaces the value in place when the key is
present (keeping its position, as Python dicts do), appends otherwise. -/
def dinsert {α : Type} : List (String × α) → String → α → List (String × α)
  | [], k, v => [(k, v)]
  | (k', v') :: d, k, v =>
    if k' == k then (k, v) :: d else (k', v') :: dinsert d k v

/-- `{**a, **b}` / `a.update(b)`: insert every entry of `b` into `a` in
order; entries of `b` win on shared keys. -/
def dupdate {α : Type} (a b : List (String × α)) : List (String × α) :=
  b.foldl (fun acc e => dinsert acc e.1 e.2) a

/-- `d.pop(k, None)`: removes the entry for `k` when present. -/
def derase {α : Type} : List (String × α) → String → List (String × α)
  | [], _ => []
  | (k', v') :: d, k => if k' == k then d else (k', v') :: derase d k

/-- The keys of an association list, in order. -/
def dkeys {α : Type} (d : List (String × α)) : List String :=
  d.map Prod.fst

/-- Wildcard match of a glob segment against a path segment: `*` matches any
(possibly empty) run of characters; other characters match literally.
This is the `fnmatch`-style matching used by `pathlib.Path.glob` for a
single path component (none of the patterns in the rule table use `?` or
character classes). -/
def segMatch : List Char → List Char → Bool
  | [], s => s.isEmpty
  | '*' :: ps, s => s.tails.any (fun t => segMatch ps t)
  | _ :: _, [] => false
  | p :: ps, c :: cs => p == c && segMatch ps cs

/-- Splits a character list on a separator character (used for path
segments, `/`, and for text lines, newline). -/
def splitChar (sep : Char) : List Char → List (List Char)
  | [] => [[]]
  | c :: rest =>
    match splitChar sep rest with
    | [] => [[]]
    | l :: ls => if c = sep then [] :: l :: ls else (c :: l) :: ls

/-- Non-recursive glob match of a pattern against a relative file path,
as performed by `path.glob(marker)`: the pattern and the path are split
into `/`-separated segments, which must align one to one, each matched by
`segMatch`. -/
def globMatch (pat file : String) : Bool :=
  let ps := splitChar '/' pat.data
  let fsegs := splitChar '/' file.data
  ps.length == fsegs.length &&
    (List.zip ps fsegs).all (fun z => segMatch z.1 z.2)

/-- The ordered detection rule table `DETECTION_RULES`: each rule is
`(markers, profile, variant)`, evaluated top to bottom. -/
def DETECTION_RULES : List (List String × String × Option String) :=
  [ (["*.xcodeproj", "*.xcworkspace", "Package.swift"], "ios-swift", none),
    (["pubspec.yaml"], "flutter", none),
    (["app/build.gradle*", "app/build.gradle.kts"], "android", none),
    (["pom.xml"], "java", some "maven"),
    (["build.gradle", "build.gradle.kts", "gradlew"], "java", some "gradle"),
    (["Cargo.toml"], "rust", none),
    (["go.mod"], "go", none),
    (["next.config.*", "*.tsx"], "typescript-react", none),
    (["tsconfig.json"], "typescript-node", none),
    (["package.json"], "javascript-node", none),
    (["pyproject.toml", "setup.py", "requirements.txt", "Pipfile"], "python", none),
    (["CMakeLists.txt", "Makefile"], "cpp", none) ]

/-- A rule fires when any of its markers globs at least one file of the
directory listing (the inner `for marker in markers ... break` loop of
`detect_project`). -/
def ruleMatches (files : List String) (r : List String × String × Option String) : Bool :=
  r.1.any (fun marker => files.any (fun f => globMatch marker f))

/-- `detect_project`: folds the rule table over the directory listing; a
firing rule contributes its `(profile, variant)` pair unless that exact pair
was already recorded. -/
def detect_project (files : List String) : List (String × Option String) :=
  DETECTION_RULES.foldl
    (fun detected r =>
      if ruleMatches files r then
        if (r.2.1, r.2.2) ∈ detected then detected else detected ++ [(r.2.1, r.2.2)]
      else detected)
    []

/-- A directory argument: `none` models a path that does not exist on the
filesystem, `some files` an existing directory with the given relative file
listing. `pathlib.Path.glob` on a non-existent directory yields no matches
(its selector returns an empty iterator when the parent is not a directory),
so `detect_project` sees an empty listing in that case and raises nothing. -/
def detect_project_dir (d : Option (List String)) : List (String × Option String) :=
  detect_project (d.getD [])

/-- Keeps the first occurrence of every element (used to restate the
dedup-append fold of `detect_project`). -/
def dedupFirst (l : List (String × Option String)) : List (String × Option String) :=
  l.foldl (fun acc e => if e ∈ acc then acc else acc ++ [e]) []

/-- Prefix test on character lists (needle first). -/
def isPrefList : List Char → List Char → Bool
  | [], _ => true
  | _ :: _, [] => false
  | p :: ps, c :: cs => p == c && isPrefList ps cs

/-- Substring occurrence of `needle` in some suffix of `hay`. -/
def subListAt : List Char → List Char → Bool
  | n, [] => isPrefList n []
  | n, c :: cs => isPrefList n (c :: cs) || subListAt n cs

/-- Python's substring test `needle in hay` on strings. -/
def containsSub (hay needle : String) : Bool :=
  subListAt needle.data hay.data

/-- The directory state read by `detect_variant`: the relative file listing,
the outcome of `json.loads` on the content of `package.json` (`none` models
a `json.JSONDecodeError`), and the raw text of `pyproject.toml`. -/
structure FS where
  files : List String
  pkgJsonParse : Option JVal
  pyprojectText : String

/-- The three profile names treated as the JS/TS family by
`detect_variant`. -/
def jsStacks : List String := ["typescript-react", "typescript-node", "javascript-node"]

/-- The combined dependency map `{**pkg.get("dependencies", {}),
**pkg.get("devDependencies", {})}`. Returns `none` exactly when the Python
expression raises an uncaught exception (`AttributeError` when the parsed
manifest is not an object, `TypeError` when a dependency field is present
but not an object) — these are not in the caught exception tuple. -/
def jsDeps (pkg : JVal) : Option (List (String × JVal)) :=
  match pkg with
  | JVal.obj o =>
    match (dlookup o "dependencies").getD (JVal.obj []),
          (dlookup o "devDependencies").getD (JVal.obj []) with
    | JVal.obj a, JVal.obj b => some (dupdate a b)
    | _, _ => none
  | _ => none

/-- `detect_variant(profile_name, directory)`. The three per-stack blocks of
the source are keyed on disjoint profile names, so the fall-through to the
end (`return None`) is flattened into the final branches. `Except.error ()`
models an uncaught exception escaping `detect_variant`; a
`json.JSONDecodeError` is caught by the `except` clause and falls through to
`None`. -/
def detect_variant (profile_name : String) (fs : FS) : Except Unit (Option String) :=
  if profile_name == "java" && fs.files.any (fun f => globMatch "pom.xml" f) then
    Except.ok (some "maven")
  else if profile_name == "java" &&
      (fs.files.any (fun f => globMatch "build.gradle" f) ||
       fs.files.any (fun f => globMatch "build.gradle.kts" f) ||
       fs.files.any (fun f => globMatch "gradlew" f)) then
    Except.ok (some "gradle")
  else if jsStacks.contains profile_name && fs.files.contains "package.json" then
    match fs.pkgJsonParse with
    | none => Except.ok none
    | some pkg =>
      match jsDeps pkg with
      | none => Except.error ()
      | some deps =>
        if dhas deps "next" then Except.ok (some "nextjs")
        else if dhas deps "react" then Except.ok (some "react")
        else if dhas deps "vue" then Except.ok (some "vue")
        else if dhas deps "svelte" || dhas deps "@sveltejs/kit" then Except.ok (some "svelte")
        else if dhas deps "express" || dhas deps "fastify" || dhas deps "koa" then Except.ok (some "api")
        else Except.ok none
  else if profile_name == "python" && fs.files.any (fun f => globMatch "manage.py" f) then
    Except.ok (some "django")
  else if profile_name == "python" &&
      (fs.files.any (fun f => globMatch "app.py" f) ||
       fs.files.any (fun f => globMatch "wsgi.py" f)) then
    Except.ok (some "flask")
  else if profile_name == "python" && fs.files.contains "pyproject.toml" &&
      containsSub fs.pyprojectText.toLower "fastapi" then
    Except.ok (some "fastapi")
  else
    Except.ok none

/-- A variant override inside a profile document. Every field of the raw
JSON object is read through `variant_config.get(...)` with a truthiness
test, under which a missing field and an empty one behave identically, so
absent fields are modelled as empty. -/
structure VariantOverride where
  mcp_servers : List (String × JVal)
  exclude_mcps : List String
  claude_md_append : String
  rules : List (String × String)
  skills : List (String × String)
  settings_merge : List (String × JVal)

/-- The empty variant override `{}` (also what an unknown variant name
resolves to). -/
def VariantOverride.empty : VariantOverride :=
  ⟨[], [], "", [], [], []⟩

/-- A loaded profile document. `claude_md`, `mcp_servers`, `rules`,
`skills` and `variants` are read with empty defaults, under which absence
and emptiness coincide; `settings` is kept optional because
`profile.get("settings", {})` aliases the stored mapping exactly when the
key is present, which matters for the mutation performed by the settings
merge. -/
structure Profile where
  display_name : Option String
  description : Option String
  mcp_servers : List (String × JVal)
  claude_md : String
  rules : List (String × String)
  skills : List (String × String)
  settings : Option (List (String × JVal))
  variants : List (String × VariantOverride)

/-- The resolved `variant_config`: `{}` unless the variant name is truthy
(Python: not `None` and not the empty string) and present in
`profile["variants"]`. -/
def variantCfg (p : Profile) (variant : Option String) : VariantOverride :=
  match variant with
  | none => VariantOverride.empty
  | some v =>
    if v.isEmpty then VariantOverride.empty
    else (dlookup p.variants v).getD VariantOverride.empty

/-- One iteration of the settings-merge loop: for `key, val` in
`settings_merge`, merge entry-wise when both the override value and the
current value are mappings, otherwise assign the override value. -/
def settingsStep (acc : List (String × JVal)) (kv : String × JVal) : List (String × JVal) :=
  match kv.2, dlookup acc kv.1 with
  | JVal.obj mo, some (JVal.obj so) => dinsert acc kv.1 (JVal.obj (dupdate so mo))
  | v, _ => dinsert acc kv.1 v

/-- The one-level settings merge loop of `apply_profile` (step 6). -/
def mergeSettings (S M : List (String × JVal)) : List (String × JVal) :=
  M.foldl settingsStep S

/-- The fully merged configuration that `apply_profile` writes to disk. -/
structure EffectiveConfig where
  mcp_servers : List (String × JVal)
  claude_md : String
  rules : List (String × String)
  skills : List (String × String)
  settings : List (String × JVal)

/-- The merge part of `apply_profile` (steps 2 to 6), for an
already-resolved variant name: MCP servers are copied, updated with the
variant additions when those are non-empty (truthiness test), then the
excluded keys are popped; `claude_md_append` is concatenated after a blank
line when non-empty; rules and skills are key-overwrite merges; settings
go through the one-level merge loop. -/
def mergeEffective (p : Profile) (variant : Option String) : EffectiveConfig :=
  let vc := variantCfg p variant
  let mcp0 := p.mcp_servers
  let mcp1 := if vc.mcp_servers.isEmpty then mcp0 else dupdate mcp0 vc.mcp_servers
  let mcp2 := vc.exclude_mcps.foldl derase mcp1
  let cmd := if vc.claude_md_append.isEmpty then p.claude_md
             else p.claude_md ++ "\n\n" ++ vc.claude_md_append
  let rls := if vc.rules.isEmpty then p.rules else dupdate p.rules vc.rules
  let skl := if vc.skills.isEmpty then p.skills else dupdate p.skills vc.skills
  let stg := mergeSettings (p.settings.getD []) vc.settings_merge
  ⟨mcp2, cmd, rls, skl, stg⟩

/-- The merge together with the post-state of the loaded profile document.
Line 262 of the source binds `settings = profile.get("settings", {})`
without copying: when the profile carries a `settings` key the local name
aliases the stored mapping, so each `settings[key] = ...` assignment of the
merge loop updates the profile document in place; when the key is absent a
fresh dict is used and the document is untouched. All other artifact maps
are copied (`{**...}`) before being merged, and nested dicts are rebuilt
(`{**settings[key], **val}`) rather than mutated. -/
def apply_profile_effect (p : Profile) (variant : Option String) :
    EffectiveConfig × Profile :=
  let vc := variantCfg p variant
  (mergeEffective p variant,
   { p with settings := p.settings.map (fun s => mergeSettings s vc.settings_merge) })

/-- The `.mcp.json` manifest written by step 2 of `apply_profile`:
written only when the merged MCP map is truthy (non-empty), with content
`{"mcpServers": ...}`; `none` means no file is written. -/
def mcpManifest (p : Profile) (variant : Option String) : Option JVal :=
  let m := (mergeEffective p variant).mcp_servers
  if m.isEmpty then none else some (JVal.obj [("mcpServers", JVal.obj m)])

/-- The two fixed `.gitignore` entries of step 7 of `apply_profile`. -/
def gitignore_entries : List String :=
  [".claude/settings.local.json", ".claude/CLAUDE.local.md"]

/-- Step 7 of `apply_profile`: the new content of `.gitignore` (a missing
file reads as the empty string). An entry is retained exactly when it does
not occur in the existing content, by Python's substring test
`e not in existing_gitignore`; when any entry remains, a comment header and
the retained entries are appended, each on its own line. -/
def updateGitignore (existing : String) : String :=
  let newEntries := gitignore_entries.filter (fun e => !containsSub existing e)
  if newEntries.isEmpty then existing
  else newEntries.foldl (fun acc e => acc ++ e ++ "\n")
    (existing ++ "\n# Claude Code (local)\n")

/-- The lines of a text, split on newline characters. -/
def splitLines (s : String) : List (List Char) :=
  splitChar '\n' s.data

/-- The claim's per-key settings rule: when both the override value and the
base value are mappings, their entry-wise union with the override's entries
winning; otherwise the override value, wholesale. -/
def mergeVal (cur : Option JVal) (v : JVal) : JVal :=
  match v, cur with
  | JVal.obj mo, some (JVal.obj so) => JVal.obj (dupdate so mo)
  | v, _ => v

/-- The merged settings map described by the specification, key by key:
keys absent from the override keep their base binding; keys of the override
are bound by `mergeVal`. -/
def mergedAt (S M : List (String × JVal)) (k : String) : Option JVal :=
  match dlookup M k with
  | none => dlookup S k
  | some v => some (mergeVal (dlookup S k) v)

theorem dlookup_dinsert_self {α : Type} (d : List (String × α)) (k : String) (v : α) :
    dlookup (dinsert d k v) k = some v := by
  induction d with
  | nil => simp [dinsert, dlookup]
  | cons e d ih =>
    obtain ⟨k', v'⟩ := e
    by_cases h : k' = k
    · simp [dinsert, dlookup, h]
    · simp [dinsert, dlookup, h, ih]

theorem dlookup_dinsert_ne {α : Type} (d : List (String × α)) (k k' : String) (v : α)
    (h : k' ≠ k) : dlookup (dinsert d k v) k' = dlookup d k' := by
  induction d with
  | nil => simp [dinsert, dlookup, Ne.symm h]
  | cons e d ih =>
    obtain ⟨k0, v0⟩ := e
    by_cases h0 : k0 = k
    · simp [dinsert, dlookup, h0, Ne.symm h]
    · by_cases h1 : k0 = k'
      · simp [dinsert, dlookup, h0, h1, h]
      · simp [dinsert, dlookup, h0, h1, ih]

theorem dkeys_dinsert {α : Type} (d : List (String × α)) (k : String) (v : α) :
    dkeys (dinsert d k v) = if k ∈ dkeys d then dkeys d else dkeys d ++ [k] := by
  induction d with
  | nil => simp [dinsert, dkeys]
  | cons e d ih =>
    obtain ⟨k0, v0⟩ := e
    by_cases h0 : k0 = k
    · simp [dinsert, dkeys, h0]
    · simp only [dkeys, List.map_cons] at ih ⊢
      simp only [dinsert, beq_iff_eq, if_neg h0, List.map_cons, ih]
      by_cases hm : k ∈ List.map Prod.fst d
      · simp [hm, Ne.symm h0]
      · simp [hm, Ne.symm h0]

theorem dkeys_dinsert_nodup {α : Type} (d : List (String × α)) (k : String) (v : α)
    (h : (dkeys d).Nodup) : (dkeys (dinsert d k v)).Nodup := by
  rw [dkeys_dinsert]
  split
  · exact h
  · next hk => simpa [List.concat_eq_append] using List.Nodup.concat hk h

theorem dkeys_dupdate_nodup {α : Type} (b a : List (String × α))
    (h : (dkeys a).Nodup) : (dkeys (dupdate a b)).Nodup := by
  induction b generalizing a with
  | nil => exact h
  | cons e b ih =>
    simp only [dupdate, List.foldl_cons]
    exact ih _ (dkeys_dinsert_nodup _ _ _ h)

theorem dlookup_eq_none {α : Type} (d : List (String × α)) (k : String)
    (h : k ∉ dkeys d) : dlookup d k = none := by
  induction d with
  | nil => rfl
  | cons e d ih =>
    obtain ⟨k0, v0⟩ := e
    simp only [dkeys, List.map_cons, List.mem_cons] at h
    push_neg at h
    simp [dlookup, Ne.symm h.1, ih (by simpa [dkeys] using h.2)]

theorem dlookup_derase_self {α : Type} (d : List (String × α)) (k : String)
    (h : (dkeys d).Nodup) : dlookup (derase d k) k = none := by
  induction d with
  | nil => rfl
  | cons e d ih =>
    obtain ⟨k0, v0⟩ := e
    simp only [dkeys, List.map_cons, List.nodup_cons] at h
    by_cases h0 : k0 = k
    · subst h0
      simp [derase, dlookup_eq_none d k0 (by simpa [dkeys] using h.1)]
    · simp [derase, dlookup, h0, ih (by simpa [dkeys] using h.2)]

theorem dkeys_derase_sublist {α : Type} (d : List (String × α)) (k : String) :
    (dkeys (derase d k)).Sublist (dkeys d) := by
  induction d with
  | nil => simp [derase, dkeys]
  | cons e d ih =>
    obtain ⟨k0, v0⟩ := e
    by_cases h0 : k0 = k
    · simp only [derase, beq_iff_eq, if_pos h0]
      simp only [dkeys, List.map_cons]
      exact List.sublist_cons_self _ _
    · simp only [derase, beq_iff_eq, if_neg h0]
      simp only [dkeys, List.map_cons]
      exact List.Sublist.cons₂ k0 ih

theorem dkeys_derase_nodup {α : Type} (d : List (String × α)) (k : String)
    (h : (dkeys d).Nodup) : (dkeys (derase d k)).Nodup :=
  List.Nodup.sublist (dkeys_derase_sublist d k) h

theorem dlookup_derase_of_none {α : Type} (d : List (String × α)) (k k' : String)
    (h : dlookup d k = none) : dlookup (derase d k') k = none := by
  induction d with
  | nil => rfl
  | cons e d ih =>
    obtain ⟨k0, v0⟩ := e
    by_cases hk : k0 = k
    · simp [dlookup, hk] at h
    · have hd : dlookup d k = none := by simpa [dlookup, hk] using h
      by_cases h0 : k0 = k'
      · simpa [derase, h0] using hd
      · simp [derase, h0, dlookup, hk, ih hd]

theorem eraseFold_of_none {α : Type} (l : List String) (m : List (String × α)) (k : String)
    (h : dlookup m k = none) : dlookup (l.foldl derase m) k = none := by
  induction l generalizing m with
  | nil => exact h
  | cons a l ih => exact ih _ (dlookup_derase_of_none m k a h)

theorem eraseFold_nodup {α : Type} (l : List String) (m : List (String × α))
    (h : (dkeys m).Nodup) : (dkeys (l.foldl derase m)).Nodup := by
  induction l generalizing m with
  | nil => exact h
  | cons a l ih => exact ih _ (dkeys_derase_nodup m a h)

theorem eraseFold_mem {α : Type} (l : List String) (m : List (String × α)) (k : String)
    (hm : (dkeys m).Nodup) (hk : k ∈ l) : dlookup (l.foldl derase m) k = none := by
  induction l generalizing m with
  | nil => cases hk
  | cons a l ih =>
    simp only [List.foldl_cons]
    rcases List.mem_cons.mp hk with h | h
    · exact eraseFold_of_none l (derase m a) k (h ▸ dlookup_derase_self m k hm)
    · exact ih (derase m a) (dkeys_derase_nodup m a hm) h

theorem settingsStep_eq (acc : List (String × JVal)) (kv : String × JVal) :
    settingsStep acc kv = dinsert acc kv.1 (mergeVal (dlookup acc kv.1) kv.2) := by
  obtain ⟨k, v⟩ := kv
  cases v <;>
    first
    | (cases h : dlookup acc k with
       | none => simp [settingsStep, mergeVal, h]
       | some x => cases x <;> simp [settingsStep, mergeVal, h])

theorem settingsStep_lookup_self (S : List (String × JVal)) (kv : String × JVal) :
    dlookup (settingsStep S kv) kv.1 = some (mergeVal (dlookup S kv.1) kv.2) := by
  rw [settingsStep_eq]
  exact dlookup_dinsert_self S kv.1 _

theorem settingsStep_lookup_ne (S : List (String × JVal)) (kv : String × JVal)
    (k : String) (h : k ≠ kv.1) :
    dlookup (settingsStep S kv) k = dlookup S k := by
  rw [settingsStep_eq]
  exact dlookup_dinsert_ne S kv.1 k _ h

theorem mergeSettings_cons (S : List (String × JVal)) (e : String × JVal)
    (M : List (String × JVal)) :
    mergeSettings S (e :: M) = mergeSettings (settingsStep S e) M := rfl

theorem mergeSettings_not_mem (M S : List (String × JVal)) (k : String)
    (h : k ∉ dkeys M) : dlookup (mergeSettings S M) k = dlookup S k := by
  induction M generalizing S with
  | nil => rfl
  | cons e M ih =>
    simp only [dkeys, List.map_cons, List.mem_cons] at h
    push_neg at h
    rw [mergeSettings_cons, ih _ (by simpa [dkeys] using h.2),
        settingsStep_lookup_ne S e k h.1]

theorem mergeSettings_lookup (M : List (String × JVal)) :
    ∀ (S : List (String × JVal)) (k : String), (dkeys M).Nodup →
      dlookup (mergeSettings S M) k = mergedAt S M k := by
  induction M with
  | nil => intro S k _; rfl
  | cons e M ih =>
    intro S k hnd
    obtain ⟨k0, v0⟩ := e
    simp only [dkeys, List.map_cons, List.nodup_cons] at hnd
    rw [mergeSettings_cons]
    by_cases hk : k = k0
    · subst hk
      rw [mergeSettings_not_mem M _ k (by simpa [dkeys] using hnd.1)]
      have := settingsStep_lookup_self S (k, v0)
      simp only at this
      rw [this]
      simp [mergedAt, dlookup]
    · rw [ih (settingsStep S (k0, v0)) k (by simpa [dkeys] using hnd.2)]
      cases h : dlookup M k with
      | none =>
        simp [mergedAt, h, dlookup, Ne.symm hk,
          settingsStep_lookup_ne S (k0, v0) k hk]
      | some v =>
        simp [mergedAt, h, dlookup, Ne.symm hk,
          settingsStep_lookup_ne S (k0, v0) k hk]

theorem foldl_if_filter_map {ρ ε : Type} (f : ρ → Bool) (g : ρ → ε)
    (step : List ε → ε → List ε) (l : List ρ) :
    ∀ acc : List ε,
      l.foldl (fun a r => if f r then step a (g r) else a) acc
        = ((l.filter f).map g).foldl step acc := by
  induction l with
  | nil => intro acc; rfl
  | cons r l ih =>
    intro acc
    cases h : f r <;> simp [List.filter_cons, h, ih]

theorem detect_project_eq (files : List String) :
    detect_project files =
      dedupFirst ((DETECTION_RULES.filter (ruleMatches files)).map
        (fun r => (r.2.1, r.2.2))) := by
  unfold detect_project dedupFirst
  exact foldl_if_filter_map (ruleMatches files) (fun r => (r.2.1, r.2.2))
    (fun acc e => if e ∈ acc then acc else acc ++ [e]) DETECTION_RULES []

theorem dedupAppend_nodup {α : Type} [DecidableEq α] (acc : List α) (e : α)
    (h : acc.Nodup) : (if e ∈ acc then acc else acc ++ [e]).Nodup := by
  split
  · exact h
  · next he => simpa [List.concat_eq_append] using List.Nodup.concat he h

theorem detect_foldl_nodup (files : List String)
    (rules : List (List String × String × Option String)) :
    ∀ acc : List (String × Option String), acc.Nodup →
      (rules.foldl
        (fun detected r =>
          if ruleMatches files r then
            if (r.2.1, r.2.2) ∈ detected then detected
            else detected ++ [(r.2.1, r.2.2)]
          else detected) acc).Nodup := by
  induction rules with
  | nil => intro acc h; exact h
  | cons r rules ih =>
    intro acc h
    simp only [List.foldl_cons]
    apply ih
    by_cases hr : ruleMatches files r = true
    · simpa [hr] using dedupAppend_nodup acc (r.2.1, r.2.2) h
    · simpa [hr] using h

theorem splitChar_ne_nil (sep : Char) (l : List Char) : splitChar sep l ≠ [] := by
  cases l with
  | nil => simp [splitChar]
  | cons c rest =>
    simp only [splitChar]
    cases h : splitChar sep rest with
    | nil => simp
    | cons a as =>
      dsimp only
      split <;> simp

theorem splitChar_cons_sep (sep : Char) (b : List Char) :
    splitChar sep (sep :: b) = [] :: splitChar sep b := by
  rcases h : splitChar sep b with _ | ⟨l, ls⟩
  · exact absurd h (splitChar_ne_nil sep b)
  · simp [splitChar, h]

theorem splitChar_append_sep (sep : Char) (e b : List Char) (he : sep ∉ e) :
    splitChar sep (e ++ sep :: b) = e :: splitChar sep b := by
  induction e with
  | nil => simpa using splitChar_cons_sep sep b
  | cons c e ih =>
    simp only [List.mem_cons] at he
    push_neg at he
    have ihe := ih he.2
    rcases h : splitChar sep b with _ | ⟨l, ls⟩
    · exact absurd h (splitChar_ne_nil sep b)
    · rw [h] at ihe
      simp [splitChar, ihe, Ne.symm he.1]

theorem splitChar_append_tail (sep : Char) (s t : List Char) :
    ∃ u, u ≠ [] ∧ splitChar sep (s ++ t) = u ++ (splitChar sep t).tail := by
  induction s with
  | nil =>
    rcases h : splitChar sep t with _ | ⟨l, ls⟩
    · exact absurd h (splitChar_ne_nil sep t)
    · exact ⟨[l], by simp, by simp [h]⟩
  | cons c s ih =>
    obtain ⟨u, hu, hs⟩ := ih
    rcases u with _ | ⟨u0, us⟩
    · exact absurd rfl hu
    · rw [List.cons_append]
      simp only [splitChar]
      rw [hs, List.cons_append]
      by_cases hc : c = sep
      · exact ⟨[] :: u0 :: us, by simp, by simp [hc]⟩
      · exact ⟨(c :: u0) :: us, by simp, by simp [hc]⟩

theorem mem_splitChar_inner (sep : Char) (pre e post : List Char) (he : sep ∉ e) :
    e ∈ splitChar sep (pre ++ sep :: (e ++ sep :: post)) := by
  obtain ⟨u, hu, hs⟩ := splitChar_append_tail sep pre (sep :: (e ++ sep :: post))
  rw [hs, splitChar_cons_sep, splitChar_append_sep sep e post he]
  simp

example : globMatch "pom.xml" "pom.xml" = true := by decide
example : globMatch "*.tsx" "App.tsx" = true := by decide
example : globMatch "app/build.gradle*" "app/build.gradle.kts" = true := by decide
example : globMatch "app/build.gradle*" "build.gradle" = false := by decide
example : globMatch "pom.xml" "apom.xml" = false := by decide

/-- A variant override whose only effect is on settings, used to exhibit the
in-place settings mutation. -/
def frameVariant : VariantOverride :=
  { mcp_servers := [], exclude_mcps := [], claude_md_append := "",
    rules := [], skills := [], settings_merge := [("model", JVal.str "haiku")] }

/-- A profile carrying a settings mapping and one variant. -/
def frameProfile : Profile :=
  { display_name := some "Demo", description := none,
    mcp_servers := [("context7", JVal.null)], claude_md := "Base instructions",
    rules := [("style", "Keep functions small")], skills := [],
    settings := some [("model", JVal.str "opus")],
    variants := [("v", frameVariant)] }

/-- A directory containing exactly a Maven project file. -/
def pomFS : FS := ⟨["pom.xml"], none, ""⟩

/-- A variant override that both adds an MCP server and excludes one that
the base also declares. -/
def exVariant : VariantOverride :=
  { mcp_servers := [("sonar", JVal.null), ("gradle-mcp", JVal.null)],
    exclude_mcps := ["sonar"], claude_md_append := "", rules := [], skills := [],
    settings_merge := [] }

/-- A profile whose `gradle` variant is `exVariant`. -/
def exProfile : Profile :=
  { display_name := none, description := none,
    mcp_servers := [("context7", JVal.null), ("sonar", JVal.null)],
    claude_md := "", rules := [], skills := [], settings := none,
    variants := [("gradle", exVariant)] }

/-- Claim C1, counterexample: with a profile declaring
`settings = [model ↦ opus]` and a variant whose `settings_merge` sets
`model ↦ haiku`, the merge updates the loaded profile document's settings
mapping in place (line 262 takes no copy), so the document does not equal
its pre-merge value. -/
theorem C1_counterexample :
    (apply_profile_effect frameProfile (some "v")).2.settings ≠ frameProfile.settings := by
  have h1 : (apply_profile_effect frameProfile (some "v")).2.settings
      = some [("model", JVal.str "haiku")] := rfl
  have h2 : frameProfile.settings = some [("model", JVal.str "opus")] := rfl
  rw [h1, h2]
  intro h
  simp only [Option.some.injEq, List.cons.injEq, Prod.mk.injEq, JVal.str.injEq] at h
  exact (by decide : ("haiku" : String) ≠ "opus") h.1.2

/-- Claim C1 (amended): computing the effective configuration leaves every
field of the loaded profile except `settings` unchanged; the profile is
fully unchanged whenever the resolved variant override carries no
`settings_merge`; and the profile's settings mapping ends up equal to the
merged settings (it is mutated in place exactly when the profile declares a
settings mapping and the override's `settings_merge` is non-empty). -/
theorem C1_profile_frame (p : Profile) (variant : Option String) :
    ((apply_profile_effect p variant).2.display_name = p.display_name ∧
     (apply_profile_effect p variant).2.description = p.description ∧
     (apply_profile_effect p variant).2.mcp_servers = p.mcp_servers ∧
     (apply_profile_effect p variant).2.claude_md = p.claude_md ∧
     (apply_profile_effect p variant).2.rules = p.rules ∧
     (apply_profile_effect p variant).2.skills = p.skills ∧
     (apply_profile_effect p variant).2.variants = p.variants) ∧
    ((variantCfg p variant).settings_merge = [] →
      (apply_profile_effect p variant).2 = p) ∧
    (apply_profile_effect p variant).2.settings
      = p.settings.map (fun s => mergeSettings s (variantCfg p variant).settings_merge) := by
  refine ⟨⟨rfl, rfl, rfl, rfl, rfl, rfl, rfl⟩, ?_, rfl⟩
  intro h
  have hs : p.settings.map
      (fun s => mergeSettings s (variantCfg p variant).settings_merge) = p.settings := by
    rw [h]
    cases p.settings <;> rfl
  simp [apply_profile_effect, hs]

/-- Witness for C1: with no variant, the resolved override has no
`settings_merge` and the profile document is fully unchanged. -/
theorem C1_witness :
    (variantCfg frameProfile none).settings_merge = [] ∧
    (apply_profile_effect frameProfile none).2 = frameProfile :=
  ⟨rfl, (C1_profile_frame frameProfile none).2.1 rfl⟩

/-- Claim C2, counterexample: for a directory listing containing exactly
`pom.xml`, `detect_project` returns `[("java", some "maven")]` — the rule
itself carries the `maven` variant — and not `[("java", none)]` as the
claim states. -/
theorem C2_counterexample :
    detect_project ["pom.xml"] = [("java", some "maven")] ∧
    detect_project ["pom.xml"] ≠ [("java", (none : Option String))] := by
  exact ⟨by decide, by decide⟩

/-- Claim C2 (amended): for a directory whose listing matches the `pom.xml`
rule and no other detection rule, `detect_project` returns the single pair
`("java", some "maven")` (the variant comes directly from the rule), and
`detect_variant("java", dir)` returns `maven`. -/
theorem C2_java_maven (fs : FS)
    (hpom : fs.files.any (fun f => globMatch "pom.xml" f) = true)
    (hsolo : (DETECTION_RULES.filter (ruleMatches fs.files)).map
      (fun r => (r.2.1, r.2.2)) = [("java", some "maven")]) :
    detect_project fs.files = [("java", some "maven")] ∧
    detect_variant "java" fs = Except.ok (some "maven") := by
  constructor
  · rw [detect_project_eq, hsolo]
    rfl
  · simp [detect_variant, hpom]

/-- Witness for C2 at the concrete listing `["pom.xml"]`. -/
theorem C2_witness :
    detect_project pomFS.files = [("java", some "maven")] ∧
    detect_variant "java" pomFS = Except.ok (some "maven") :=
  C2_java_maven pomFS (by decide) (by decide)

/-- Claim C3: a requested variant name absent from `profile.variants`
resolves to the empty override, so the effective configuration equals the
one merged with no variant at all (and the merge raises nothing). -/
theorem C3_lenient_variant (p : Profile) (v : String)
    (h : dlookup p.variants v = none) :
    mergeEffective p (some v) = mergeEffective p none := by
  have hv : variantCfg p (some v) = variantCfg p none := by
    simp [variantCfg, h]
  unfold mergeEffective
  rw [hv]

/-- Witness for C3: `typo` is not a variant of `frameProfile`. -/
theorem C3_witness :
    dlookup frameProfile.variants "typo" = none ∧
    mergeEffective frameProfile (some "typo") = mergeEffective frameProfile none :=
  ⟨rfl, C3_lenient_variant frameProfile "typo" rfl⟩

/-- Claim C4: every key listed in the resolved override's `exclude_mcps` is
absent from the merged MCP-server map, even when the override also adds it
(the pops run after the update). The profile's own MCP map has unique keys,
being a JSON object. -/
theorem C4_exclude_wins (p : Profile) (variant : Option String) (k : String)
    (hnd : (dkeys p.mcp_servers).Nodup)
    (hk : k ∈ (variantCfg p variant).exclude_mcps) :
    dlookup (mergeEffective p variant).mcp_servers k = none := by
  simp only [mergeEffective]
  apply eraseFold_mem _ _ _ _ hk
  by_cases he : (variantCfg p variant).mcp_servers.isEmpty
  · simpa [he] using hnd
  · simpa [he] using dkeys_dupdate_nodup (variantCfg p variant).mcp_servers p.mcp_servers hnd

/-- Witness for C4: the `gradle` variant of `exProfile` adds `sonar` and
also excludes it; the merged map drops it. -/
theorem C4_witness :
    (dkeys exProfile.mcp_servers).Nodup ∧
    "sonar" ∈ (variantCfg exProfile (some "gradle")).exclude_mcps ∧
    dlookup (mergeEffective exProfile (some "gradle")).mcp_servers "sonar" = none :=
  ⟨by decide, by decide,
    C4_exclude_wins exProfile (some "gradle") "sonar" (by decide) (by decide)⟩

/-- Claim C5, counterexample: for a non-existent directory `detect_project`
returns the normal empty result — every glob over a missing directory
yields no matches and no error is raised — rather than failing with a
NotFound error as the claim states. -/
theorem C5_counterexample : detect_project_dir none = [] := rfl

/-- Claim C5 (amended): `detect_project` on a non-existent directory
behaves exactly as on an existing empty directory: it returns the empty
list normally, with no error. -/
theorem C5_missing_dir : detect_project_dir none = detect_project_dir (some []) := rfl

/-- Claim C6, counterexample: a directory with both `pom.xml` and
`build.gradle` makes the two java rules fire, so the stack `java` appears
twice (with different variants) in the result. -/
theorem C6_counterexample :
    (detect_project ["pom.xml", "build.gradle"]).map Prod.fst = ["java", "java"] ∧
    ¬ ((detect_project ["pom.xml", "build.gradle"]).map Prod.fst).Nodup := by
  exact ⟨by decide, by decide⟩

/-- Claim C6 (amended): `detect_project` never returns two entries with the
same stack-and-variant pair (the dedup is by pair); the same stack may
however recur with different variants. -/
theorem C6_nodup_pairs (files : List String) : (detect_project files).Nodup := by
  unfold detect_project
  exact detect_foldl_nodup files DETECTION_RULES [] List.nodup_nil

/-- The JS/TS framework precedence table described by the specification:
dependency names checked in order, together with the variant name that each
check yields. -/
def jsFrameworkChecks : List (List String × String) :=
  [(["next"], "nextjs"), (["react"], "react"), (["vue"], "vue"),
   (["svelte", "@sveltejs/kit"], "svelte"), (["express", "fastify", "koa"], "api")]

/-- First match in a precedence table: the variant of the first check whose
dependency names intersect the combined dependency map. -/
def firstMatch (table : List (List String × String))
    (deps : List (String × JVal)) : Option String :=
  (table.find? (fun c => c.1.any (fun k => dhas deps k))).map (fun c => c.2)

/-- A manifest whose only dependency is `next`. -/
def nextPkg : JVal :=
  JVal.obj [("dependencies", JVal.obj [("next", JVal.str "14.1.0")])]

/-- A directory with a parseable `package.json` depending on `next`. -/
def nextFS : FS := ⟨["package.json"], some nextPkg, ""⟩

/-- Claim C7, counterexample: for a manifest depending on `next` the
returned variant is `nextjs`, which is none of the names
`next, react, vue, svelte, api` listed by the claim as the precedence
order. -/
theorem C7_counterexample :
    detect_variant "typescript-node" nextFS = Except.ok (some "nextjs") ∧
    ("nextjs" : String) ∉ ["next", "react", "vue", "svelte", "api"] := by
  exact ⟨rfl, by decide⟩

/-- Claim C7 (amended): for every JS/TS-family stack whose `package.json`
exists, an unparseable manifest yields no variant and no error; a
parseable object manifest yields the first match of the fixed precedence
table (checked over the union of regular and development dependencies),
where the `next` check yields the variant name `nextjs`, the svelte check
also accepts `@sveltejs/kit`, and the `api` variant covers
express/fastify/koa. -/
theorem C7_js_variant (stack : String) (fs : FS)
    (hstack : stack ∈ jsStacks) (hpkg : "package.json" ∈ fs.files) :
    (fs.pkgJsonParse = none → detect_variant stack fs = Except.ok none) ∧
    (∀ pkg deps, fs.pkgJsonParse = some pkg → jsDeps pkg = some deps →
      detect_variant stack fs = Except.ok (firstMatch jsFrameworkChecks deps)) := by
  have h3 : stack = "typescript-react" ∨ stack = "typescript-node" ∨
      stack = "javascript-node" := by
    simpa [jsStacks] using hstack
  have hjava : (stack == "java") = false := by
    rcases h3 with h | h | h <;> simp [h]
  have hpyth : (stack == "python") = false := by
    rcases h3 with h | h | h <;> simp [h]
  have hjs : jsStacks.contains stack = true := by
    rcases h3 with h | h | h <;> simp [jsStacks, h]
  have hpk : fs.files.contains "package.json" = true := by
    simpa [List.contains] using List.elem_iff.mpr hpkg
  constructor
  · intro hparse
    simp [detect_variant, hjava, hpyth, hjs, hpk, hparse]
  · intro pkg deps hp hd
    cases h1 : dhas deps "next" <;> cases h2 : dhas deps "react" <;>
      cases hv : dhas deps "vue" <;> cases h4 : dhas deps "svelte" <;>
      cases h4b : dhas deps "@sveltejs/kit" <;> cases h5 : dhas deps "express" <;>
      cases h5b : dhas deps "fastify" <;> cases h5c : dhas deps "koa" <;>
      simp [detect_variant, hjava, hpyth, hjs, hpk, hstack, hpkg, hp, hd, firstMatch,
        jsFrameworkChecks, List.find?, h1, h2, hv, h4, h4b, h5, h5b, h5c]

/-- Witness for C7 at a concrete manifest depending on `next`. -/
theorem C7_witness :
    detect_variant "typescript-node" nextFS
      = Except.ok (firstMatch jsFrameworkChecks [("next", JVal.str "14.1.0")]) :=
  (C7_js_variant "typescript-node" nextFS (by decide) (by decide)).2
    nextPkg [("next", JVal.str "14.1.0")] rfl rfl

/-- A base settings mapping with one nested and one scalar entry. -/
def baseSettings : List (String × JVal) :=
  [("env", JVal.obj [("A", JVal.num 1), ("B", JVal.num 2)]), ("model", JVal.str "opus")]

/-- A settings override with a nested entry sharing the key `env` and a
fresh key. -/
def overrideSettings : List (String × JVal) :=
  [("env", JVal.obj [("B", JVal.num 3), ("C", JVal.num 4)]), ("theme", JVal.str "dark")]

/-- Claim C8: at every key, the merged settings agree with the per-key
description — entry-wise union with the override winning when both values
are mappings, the override value wholesale otherwise, and base bindings
for keys the override does not touch. The override, being a JSON object,
has unique keys. -/
theorem C8_settings_merge (S M : List (String × JVal)) (k : String)
    (hnd : (dkeys M).Nodup) :
    dlookup (mergeSettings S M) k = mergedAt S M k :=
  mergeSettings_lookup M S k hnd

/-- Witness for C8 at a concrete pair of mappings sharing the nested key
`env`. -/
theorem C8_witness :
    (dkeys overrideSettings).Nodup ∧
    dlookup (mergeSettings baseSettings overrideSettings) "env"
      = mergedAt baseSettings overrideSettings "env" :=
  ⟨by decide, C8_settings_merge baseSettings overrideSettings "env" (by decide)⟩

/-- A variant override that removes the only MCP server of its base. -/
def emptyingVariant : VariantOverride :=
  { mcp_servers := [], exclude_mcps := ["context7"], claude_md_append := "",
    rules := [], skills := [], settings_merge := [] }

/-- A profile whose single MCP server is excluded by its `v` variant. -/
def emptyingProfile : Profile :=
  { display_name := none, description := none,
    mcp_servers := [("context7", JVal.null)],
    claude_md := "", rules := [], skills := [], settings := none,
    variants := [("v", emptyingVariant)] }

/-- Claim C10: when the merged MCP map is empty no `.mcp.json` manifest is
written at all, and the written manifest is never one carrying an empty
`mcpServers` object. -/
theorem C10_empty_mcp (p : Profile) (variant : Option String) :
    ((mergeEffective p variant).mcp_servers = [] → mcpManifest p variant = none) ∧
    mcpManifest p variant ≠ some (JVal.obj [("mcpServers", JVal.obj [])]) := by
  constructor
  · intro h
    simp [mcpManifest, h]
  · intro h
    simp only [mcpManifest] at h
    by_cases hm : (mergeEffective p variant).mcp_servers.isEmpty = true
    · rw [if_pos hm] at h
      exact Option.noConfusion h
    · rw [if_neg hm] at h
      simp only [Option.some.injEq, JVal.obj.injEq, List.cons.injEq,
        Prod.mk.injEq, and_true, true_and] at h
      exact hm (by rw [h]; rfl)

/-- Witness for C10: the `v` variant of `emptyingProfile` empties the
merged MCP map, so no manifest is written. -/
theorem C10_witness :
    (mergeEffective emptyingProfile (some "v")).mcp_servers = [] ∧
    mcpManifest emptyingProfile (some "v") = none :=
  ⟨rfl, (C10_empty_mcp emptyingProfile (some "v")).1 rfl⟩

theorem mem_splitLines_shape (s : String) (pre e post : List Char)
    (hd : s.data = pre ++ '\n' :: (e ++ '\n' :: post)) (he : '\n' ∉ e) :
    e ∈ splitLines s := by
  unfold splitLines
  rw [hd]
  exact mem_splitChar_inner '\n' pre e post he

theorem updateGitignore_data_ff (existing : String)
    (hc1 : containsSub existing ".claude/settings.local.json" = false)
    (hc2 : containsSub existing ".claude/CLAUDE.local.md" = false) :
    (updateGitignore existing).data = existing.data ++
      ("\n# Claude Code (local)\n.claude/settings.local.json\n.claude/CLAUDE.local.md\n" : String).data := by
  have h0 : updateGitignore existing
      = ((existing ++ "\n# Claude Code (local)\n") ++ ".claude/settings.local.json" ++ "\n")
        ++ ".claude/CLAUDE.local.md" ++ "\n" := by
    simp [updateGitignore, gitignore_entries, List.filter_cons, hc1, hc2]
  rw [h0]
  simp only [String.data_append, List.append_assoc]
  exact congrArg (fun t => existing.data ++ t) (by decide)

theorem updateGitignore_data_ft (existing : String)
    (hc1 : containsSub existing ".claude/settings.local.json" = false)
    (hc2 : containsSub existing ".claude/CLAUDE.local.md" = true) :
    (updateGitignore existing).data = existing.data ++
      ("\n# Claude Code (local)\n.claude/settings.local.json\n" : String).data := by
  have h0 : updateGitignore existing
      = (existing ++ "\n# Claude Code (local)\n") ++ ".claude/settings.local.json" ++ "\n" := by
    simp [updateGitignore, gitignore_entries, List.filter_cons, hc1, hc2]
  rw [h0]
  simp only [String.data_append, List.append_assoc]
  exact congrArg (fun t => existing.data ++ t) (by decide)

theorem updateGitignore_data_tf (existing : String)
    (hc1 : containsSub existing ".claude/settings.local.json" = true)
    (hc2 : containsSub existing ".claude/CLAUDE.local.md" = false) :
    (updateGitignore existing).data = existing.data ++
      ("\n# Claude Code (local)\n.claude/CLAUDE.local.md\n" : String).data := by
  have h0 : updateGitignore existing
      = (existing ++ "\n# Claude Code (local)\n") ++ ".claude/CLAUDE.local.md" ++ "\n" := by
    simp [updateGitignore, gitignore_entries, List.filter_cons, hc1, hc2]
  rw [h0]
  simp only [String.data_append, List.append_assoc]
  exact congrArg (fun t => existing.data ++ t) (by decide)

theorem updateGitignore_data_tt (existing : String)
    (hc1 : containsSub existing ".claude/settings.local.json" = true)
    (hc2 : containsSub existing ".claude/CLAUDE.local.md" = true) :
    (updateGitignore existing).data = existing.data ++ ("" : String).data := by
  have h0 : updateGitignore existing = existing := by
    simp [updateGitignore, gitignore_entries, List.filter_cons, hc1, hc2]
  rw [h0]
  exact (List.append_nil _).symm

/-- Claim C9, counterexample: in a `.gitignore` whose only line is
`.claude/settings.local.json.bak`, the entry `.claude/settings.local.json`
is not present as a full line, yet the substring test (line 287 uses
`e not in existing_gitignore`) suppresses it, so after the update the entry
still does not occur as a line — the claim predicted it would be appended. -/
theorem C9_counterexample :
    (".claude/settings.local.json".data ∉
      splitLines ".claude/settings.local.json.bak\n") ∧
    (".claude/settings.local.json".data ∉
      splitLines (updateGitignore ".claude/settings.local.json.bak\n")) := by
  exact ⟨by decide, by decide⟩

/-- Claim C9 (amended): each fixed entry is appended exactly when it does
not occur as a substring of the pre-existing content: an entry not
occurring at all is appended and becomes a full line of the result, while
an entry occurring anywhere (even inside a longer line) is never appended —
the file grows only by a block that does not contain it. -/
theorem C9_gitignore (existing : String) (e : String) (he : e ∈ gitignore_entries) :
    (containsSub existing e = false →
      e.data ∈ splitLines (updateGitignore existing)) ∧
    (containsSub existing e = true →
      ∃ extra, updateGitignore existing = existing ++ extra ∧
        containsSub extra e = false) := by
  have he2 : e = ".claude/settings.local.json" ∨ e = ".claude/CLAUDE.local.md" := by
    simpa [gitignore_entries] using he
  rcases he2 with rfl | rfl
  · constructor
    · intro hc1
      by_cases hc2 : containsSub existing ".claude/CLAUDE.local.md" = true
      · refine mem_splitLines_shape _
          (existing.data ++ '\n' :: "# Claude Code (local)".data) _ [] ?_ (by decide)
        rw [updateGitignore_data_ft existing hc1 hc2]
        simp only [List.append_assoc, List.cons_append]
        exact congrArg (fun t => existing.data ++ t) (by decide)
      · refine mem_splitLines_shape _
          (existing.data ++ '\n' :: "# Claude Code (local)".data) _
          (".claude/CLAUDE.local.md".data ++ ['\n']) ?_ (by decide)
        rw [updateGitignore_data_ff existing hc1 (by simpa using hc2)]
        simp only [List.append_assoc, List.cons_append]
        exact congrArg (fun t => existing.data ++ t) (by decide)
    · intro hc1
      by_cases hc2 : containsSub existing ".claude/CLAUDE.local.md" = true
      · refine ⟨"", ?_, by decide⟩
        apply String.ext
        rw [updateGitignore_data_tt existing hc1 hc2]
        simp only [String.data_append]
      · refine ⟨"\n# Claude Code (local)\n.claude/CLAUDE.local.md\n", ?_, by decide⟩
        apply String.ext
        rw [updateGitignore_data_tf existing hc1 (by simpa using hc2)]
        simp only [String.data_append]
  · constructor
    · intro hc2
      by_cases hc1 : containsSub existing ".claude/settings.local.json" = true
      · refine mem_splitLines_shape _
          (existing.data ++ '\n' :: "# Claude Code (local)".data) _ [] ?_ (by decide)
        rw [updateGitignore_data_tf existing hc1 hc2]
        simp only [List.append_assoc, List.cons_append]
        exact congrArg (fun t => existing.data ++ t) (by decide)
      · refine mem_splitLines_shape _
          (existing.data ++ '\n' ::
            ("# Claude Code (local)".data ++ '\n' :: ".claude/settings.local.json".data))
          _ [] ?_ (by decide)
        rw [updateGitignore_data_ff existing (by simpa using hc1) hc2]
        simp only [List.append_assoc, List.cons_append]
        exact congrArg (fun t => existing.data ++ t) (by decide)
    · intro hc2
      by_cases hc1 : containsSub existing ".claude/settings.local.json" = true
      · refine ⟨"", ?_, by decide⟩
        apply String.ext
        rw [updateGitignore_data_tt existing hc1 hc2]
        simp only [String.data_append]
      · refine ⟨"\n# Claude Code (local)\n.claude/settings.local.json\n", ?_, by decide⟩
        apply String.ext
        rw [updateGitignore_data_ft existing (by simpa using hc1) hc2]
        simp only [String.data_append]

/-- Witness for C9: in a `.gitignore` containing only `node_modules`, the
first entry is absent and gets appended as a full line. -/
theorem C9_witness :
    (".claude/settings.local.json" : String) ∈ gitignore_entries ∧
    containsSub "node_modules\n" ".claude/settings.local.json" = false ∧
    ".claude/settings.local.json".data ∈ splitLines (updateGitignore "node_modules\n") :=
  ⟨by decide, by decide,
    (C9_gitignore "node_modules\n" ".claude/settings.local.json" (by decide)).1 (by decide)⟩
